import Mathlib

/-!
Shallow embedding of the signal-generation logic of the `DanielsNumber1`
trading strategy (file `user_data/strategies/DanielsNumber1.py`).

A candle series is a `List Candle` with exact rational fields.  Per-index
indicator columns are functions `ℕ → Option ℚ`; `none` plays the role of a
pandas `NaN` (missing value during indicator warm-up or out-of-range index).
Comparisons follow pandas semantics: any comparison involving `NaN` is
`False`.  Rolling windows use the pandas default `min_periods = window`, so a
window that is not completely filled with defined values yields `none`.
`ta.EMA` / `ta.SMA` / `ta.ATR` follow the TA-Lib definitions (EMA seeded with
the SMA of the first `n` closes, ATR seeded with the mean of the first `n`
true ranges and then Wilder-smoothed).
-/

namespace DanielsNumber1

/-- One OHLCV candle (the `date` column is carried along but never read by
the signal logic). -/
structure Candle where
  date : ℚ
  open_ : ℚ
  high : ℚ
  low : ℚ
  close : ℚ
  volume : ℚ
deriving DecidableEq, Repr

/-- Row access in the candle series, `none` out of range. -/
def getC (df : List Candle) (i : ℕ) : Option Candle := df.get? i

def closeCol (df : List Candle) (i : ℕ) : Option ℚ := (getC df i).map Candle.close

def highCol (df : List Candle) (i : ℕ) : Option ℚ := (getC df i).map Candle.high

def lowCol (df : List Candle) (i : ℕ) : Option ℚ := (getC df i).map Candle.low

def volCol (df : List Candle) (i : ℕ) : Option ℚ := (getC df i).map Candle.volume

/-- Pandas comparison `a > b`: `False` whenever either side is `NaN`. -/
def oGT : Option ℚ → Option ℚ → Bool
  | some a, some b => decide (b < a)
  | _, _ => false

/-- Pandas comparison `a < b`. -/
def oLT (a b : Option ℚ) : Bool := oGT b a

/-- Turn a list of optional values into an optional list: `none` as soon as
one entry is missing (a rolling window containing a `NaN`). -/
def seqO : List (Option ℚ) → Option (List ℚ)
  | [] => some []
  | none :: _ => none
  | some x :: xs => (seqO xs).map (x :: ·)

/-- The values of the length-`n` window ending at index `i` of the series
`s`, i.e. indices `i+1-n, …, i`; `none` if the window is not full. -/
def winVals (s : ℕ → Option ℚ) (n i : ℕ) : Option (List ℚ) :=
  if i + 1 < n then none
  else seqO ((List.range n).map (fun k => s (i + 1 - n + k)))

def listMax : List ℚ → Option ℚ
  | [] => none
  | x :: xs => some (xs.foldl max x)

def listMin : List ℚ → Option ℚ
  | [] => none
  | x :: xs => some (xs.foldl min x)

/-- `Series.rolling(n).max()` with the default `min_periods = n`. -/
def rollMax (s : ℕ → Option ℚ) (n i : ℕ) : Option ℚ := (winVals s n i).bind listMax

/-- `Series.rolling(n).min()`. -/
def rollMin (s : ℕ → Option ℚ) (n i : ℕ) : Option ℚ := (winVals s n i).bind listMin

/-- `Series.rolling(n).mean()`. -/
def rollMean (s : ℕ → Option ℚ) (n i : ℕ) : Option ℚ :=
  (winVals s n i).map (fun l => l.sum / (n : ℚ))

/-- `Series.shift(n)`: index `i` reads the value at `i - n`, `NaN` before. -/
def shiftN (n : ℕ) (s : ℕ → Option ℚ) (i : ℕ) : Option ℚ :=
  if i < n then none else s (i - n)

/-- TA-Lib `EMA`: first output at index `n-1` is the SMA of the first `n`
closes, afterwards `EMA[i] = close[i]*k + EMA[i-1]*(1-k)` with `k = 2/(n+1)`. -/
def taEMA (df : List Candle) (n : ℕ) : ℕ → Option ℚ
  | 0 => if n = 1 then closeCol df 0 else none
  | (j+1) =>
    if j + 2 < n then none
    else if j + 2 = n then rollMean (closeCol df) n (j + 1)
    else
      (taEMA df n j).bind (fun p =>
        (closeCol df (j + 1)).map (fun c =>
          c * (2 / ((n : ℚ) + 1)) + p * (1 - 2 / ((n : ℚ) + 1))))

/-- TA-Lib `SMA`: plain rolling mean of the close column. -/
def taSMA (df : List Candle) (n i : ℕ) : Option ℚ := rollMean (closeCol df) n i

/-- True range of candle `c` given the previous candle `p`. -/
def trVal (c p : Candle) : ℚ :=
  max (c.high - c.low) (max |c.high - p.close| |c.low - p.close|)

/-- True-range column: defined from index 1 on (needs the previous close). -/
def trCol (df : List Candle) : ℕ → Option ℚ
  | 0 => none
  | (j+1) => (getC df (j + 1)).bind (fun c => (getC df j).map (fun p => trVal c p))

/-- TA-Lib `ATR`: first output at index `n` is the mean of the first `n`
true ranges, afterwards Wilder smoothing `(ATR[i-1]*(n-1) + TR[i]) / n`. -/
def taATR (df : List Candle) (n : ℕ) : ℕ → Option ℚ
  | 0 => none
  | (j+1) =>
    if j + 1 < n then none
    else if j + 1 = n then
      (seqO ((List.range n).map (fun k => trCol df (k + 1)))).map
        (fun l => l.sum / (n : ℚ))
    else
      (taATR df n j).bind (fun p =>
        (trCol df (j + 1)).map (fun t => (p * ((n : ℚ) - 1) + t) / (n : ℚ)))

/-! ### The indicator columns of `populate_indicators` -/

def ema_fast (df : List Candle) (i : ℕ) : Option ℚ := taEMA df 40 i

def ema_slow (df : List Candle) (i : ℕ) : Option ℚ := taEMA df 80 i

def sma_trend (df : List Candle) (i : ℕ) : Option ℚ := taSMA df 200 i

def bull_regime (df : List Candle) (i : ℕ) : Bool := oGT (ema_fast df i) (ema_slow df i)

def bear_regime (df : List Candle) (i : ℕ) : Bool :=
  oLT (ema_fast df i) (ema_slow df i) && oLT (closeCol df i) (sma_trend df i)

/-- `high.rolling(28).max().shift(1)`. -/
def highest (df : List Candle) (i : ℕ) : Option ℚ :=
  match i with
  | 0 => none
  | (j+1) => rollMax (highCol df) 28 j

/-- `low.rolling(28).min().shift(1)`. -/
def lowest (df : List Candle) (i : ℕ) : Option ℚ :=
  match i with
  | 0 => none
  | (j+1) => rollMin (lowCol df) 28 j

def volume_sma (df : List Candle) (i : ℕ) : Option ℚ := rollMean (volCol df) 20 i

def atr (df : List Candle) (i : ℕ) : Option ℚ := taATR df 14 i

def atr_avg (df : List Candle) (i : ℕ) : Option ℚ := rollMean (atr df) 50 i

def range_high (df : List Candle) (i : ℕ) : Option ℚ := rollMax (highCol df) 48 i

def range_low (df : List Candle) (i : ℕ) : Option ℚ := rollMin (lowCol df) 48 i

def range_size (df : List Candle) (i : ℕ) : Option ℚ :=
  (range_high df i).bind (fun h => (range_low df i).map (fun l => h - l))

/-- `range_size.replace(0, 1e-10)`: an exact zero width becomes `1e-10`. -/
def range_denom (df : List Candle) (i : ℕ) : Option ℚ :=
  (range_size df i).map (fun s => if s = 0 then 1 / 10 ^ 10 else s)

def range_position (df : List Candle) (i : ℕ) : Option ℚ :=
  (closeCol df i).bind (fun c =>
    (range_low df i).bind (fun l =>
      (range_denom df i).map (fun d => (c - l) / d)))

def atr_compressed (df : List Candle) (i : ℕ) : Bool := oLT (atr df i) (atr_avg df i)

def distribution (df : List Candle) (i : ℕ) : Bool :=
  atr_compressed df i && oGT (range_position df i) (some (1 / 2))

/-- The `distribution` boolean series viewed as the numeric series pandas
rolls over: `1.0` / `0.0` on the rows of the frame, absent beyond it. -/
def distCol (df : List Candle) (i : ℕ) : Option ℚ :=
  if i < df.length then some (if distribution df i then 1 else 0) else none

/-- `distribution.rolling(48).max().shift(1)`. -/
def post_distribution_raw (df : List Candle) (i : ℕ) : Option ℚ :=
  match i with
  | 0 => none
  | (j+1) => rollMax (distCol df) 48 j

/-- `distribution.rolling(48).max().shift(1) > 0` (a `NaN` compares false,
so the column is a total boolean column; the later `.fillna(False)` in
`populate_entry_trend` is therefore the identity). -/
def post_distribution (df : List Candle) (i : ℕ) : Bool :=
  oGT (post_distribution_raw df i) (some 0)

def atr_recent_min (df : List Candle) (i : ℕ) : Option ℚ := rollMin (atr df) 20 i

/-- `~(atr > atr_recent_min * 1.52)`. -/
def no_atr_spike (df : List Candle) (i : ℕ) : Bool :=
  !(oGT (atr df i) ((atr_recent_min df i).map (fun m => m * (38 / 25))))

/-! ### The entry conditions of `populate_entry_trend` -/

def vol_surge (df : List Candle) (i : ℕ) : Bool :=
  oGT (volCol df i) ((volume_sma df i).map (fun v => v * (27 / 10)))

def mom_up (df : List Candle) (i : ℕ) : Bool :=
  oGT (closeCol df i) ((shiftN 5 (closeCol df) i).map (fun c => c * (1 + 2 / 100)))

def volatility_ok (df : List Candle) (i : ℕ) : Bool :=
  oLT (atr df i) ((atr_avg df i).map (fun a => a * 2))

def enter_long (df : List Candle) (i : ℕ) : Bool :=
  bull_regime df i &&
  oGT (closeCol df i) (highest df i) &&
  oGT (closeCol df i) (ema_slow df i) &&
  vol_surge df i && mom_up df i && volatility_ok df i

def vol_surge_short (df : List Candle) (i : ℕ) : Bool :=
  oGT (volCol df i) ((volume_sma df i).map (fun v => v * (27 / 10)))

def mom_down (df : List Candle) (i : ℕ) : Bool :=
  oLT (closeCol df i) ((shiftN 5 (closeCol df) i).map (fun c => c * (1 - 3 / 100)))

def vol_surge_short_boosted (df : List Candle) (i : ℕ) : Bool :=
  oGT (volCol df i) ((volume_sma df i).map (fun v => v * (22 / 10)))

def mom_down_boosted (df : List Candle) (i : ℕ) : Bool :=
  oLT (closeCol df i) ((shiftN 5 (closeCol df) i).map (fun c => c * (1 - 2 / 100)))

def short_base (df : List Candle) (i : ℕ) : Bool :=
  bear_regime df i &&
  oLT (closeCol df i) (lowest df i) &&
  oLT (closeCol df i) (ema_slow df i) &&
  volatility_ok df i &&
  no_atr_spike df i

def enter_short (df : List Candle) (i : ℕ) : Bool :=
  short_base df i &&
  ((vol_surge_short df i && mom_down df i) ||
   (post_distribution df i && vol_surge_short_boosted df i && mom_down_boosted df i))

/-! ### The dataframe transformations, as functions on a column store -/

/-- A strategy dataframe: the input candle columns plus the derived numeric
and boolean columns added so far (keyed by their pandas column name). -/
structure StratDF where
  candles : List Candle
  numCols : List (String × (ℕ → Option ℚ))
  boolCols : List (String × (ℕ → Bool))

/-- `populate_indicators`: assigns only freshly named derived columns. -/
def populate_indicators (f : StratDF) : StratDF :=
  { f with
    numCols := f.numCols ++
      [("ema_fast", ema_fast f.candles), ("ema_slow", ema_slow f.candles),
       ("sma_trend", sma_trend f.candles), ("highest", highest f.candles),
       ("lowest", lowest f.candles), ("volume_sma", volume_sma f.candles),
       ("atr", atr f.candles), ("atr_avg", atr_avg f.candles)],
    boolCols := f.boolCols ++
      [("bull_regime", bull_regime f.candles), ("bear_regime", bear_regime f.candles),
       ("post_distribution", post_distribution f.candles),
       ("no_atr_spike", no_atr_spike f.candles)] }

/-- `populate_entry_trend`: assigns only the two entry-flag columns. -/
def populate_entry_trend (f : StratDF) : StratDF :=
  { f with
    boolCols := f.boolCols ++
      [("enter_long", enter_long f.candles), ("enter_short", enter_short f.candles)] }

/-! ### Auxiliary definitions used in the statements and concrete inputs -/

/-- The candle at index `j`, defaulting to a zero candle out of range (used
only to name the value inside a `some`). -/
def candAt (df : List Candle) (j : ℕ) : Candle :=
  (getC df j).getD { date := 0, open_ := 0, high := 0, low := 0, close := 0, volume := 0 }

/-- A well-formed OHLC row: `low ≤ close ≤ high`. -/
def validC (c : Candle) : Bool := decide (c.low ≤ c.close) && decide (c.close ≤ c.high)

/-- Index `i` has a full, in-range 48-candle Wyckoff window of valid candles
with strictly positive range width. -/
def windowOK (df : List Candle) (i : ℕ) : Bool :=
  decide (47 ≤ i) && decide (i < df.length) &&
  ((List.range 48).all (fun k => ((getC df (i + 1 - 48 + k)).map validC).getD false)) &&
  oGT (range_high df i) (range_low df i)

/-- A flat reference candle used for concrete witness series. -/
def c0 : Candle := { date := 0, open_ := 1, high := 2, low := 0, close := 1, volume := 1 }

/-- A constant candle series of length `n`. -/
def constDF (n : ℕ) : List Candle := List.replicate n c0

/-- A candle with close `c`, a symmetric 40-wide range, and volume `v`. -/
def mkC (c v : ℚ) : Candle :=
  { date := 0, open_ := c, high := c + 20, low := c - 20, close := c, volume := v }

/-- A 101-candle series: 95 flat candles, then a five-step ramp, then a
breakout candle with a volume surge.  All long-entry conditions hold at
index 100, well before the 250-candle warm-up threshold. -/
def earlyDF : List Candle :=
  List.replicate 95 (mkC 100 1) ++
    [mkC 110 1, mkC 120 1, mkC 130 1, mkC 140 1, mkC 150 1, mkC 200 100]

/-- A 65-candle series with shrinking true range whose Wyckoff
`distribution` flag is true at index 63 and nowhere else. -/
def wyckoffDF : List Candle :=
  (List.range 65).map (fun j =>
    { date := 0, open_ := 0, high := 2000 - 10 * (j : ℚ), low := 0,
      close := if j = 63 then 1000 else 0, volume := 0 })

/-- A candle whose fields differ from `c0` (an extreme high). -/
def cBig : Candle := { date := 0, open_ := 1, high := 1000, low := 0, close := 1, volume := 1 }

/-- 29 flat candles. -/
def flat29DF : List Candle := List.replicate 29 c0

/-- 28 flat candles followed by an extreme candle at index 28. -/
def spike29DF : List Candle := List.replicate 28 c0 ++ [cBig]

/-- A valid candle with a nonzero high-low range. -/
def cValid : Candle := { date := 0, open_ := 5, high := 10, low := 0, close := 5, volume := 1 }

/-- 48 valid candles with positive range width. -/
def valid48DF : List Candle := List.replicate 48 cValid

/-! ### Basic lemmas about the option-valued comparison and access helpers -/

theorem oGT_none_left (x : Option ℚ) : oGT none x = false := by cases x <;> rfl

theorem oGT_none_right (x : Option ℚ) : oGT x none = false := by cases x <;> rfl

theorem oGT_some_some (a b : ℚ) : oGT (some a) (some b) = decide (b < a) := rfl

theorem oGT_eq_true_iff {x y : Option ℚ} :
    oGT x y = true ↔ ∃ a b, x = some a ∧ y = some b ∧ b < a := by
  cases x with
  | none => simp [oGT_none_left]
  | some a =>
    cases y with
    | none => simp [oGT_none_right]
    | some b => simp [oGT_some_some]

theorem oLT_eq_true_iff {x y : Option ℚ} :
    oLT x y = true ↔ ∃ a b, x = some a ∧ y = some b ∧ a < b := by
  rw [oLT, oGT_eq_true_iff]
  constructor
  · rintro ⟨a, b, h1, h2, h3⟩; exact ⟨b, a, h2, h1, h3⟩
  · rintro ⟨a, b, h1, h2, h3⟩; exact ⟨b, a, h2, h1, h3⟩

theorem getC_eq_none_iff {df : List Candle} {i : ℕ} :
    getC df i = none ↔ df.length ≤ i := by
  simp [getC, List.get?_eq_getElem?, List.getElem?_eq_none_iff]

theorem getC_some_of_lt {df : List Candle} {i : ℕ} (h : i < df.length) :
    ∃ c, getC df i = some c := by
  cases hg : getC df i with
  | none => exact absurd (getC_eq_none_iff.mp hg) (by omega)
  | some c => exact ⟨c, rfl⟩

theorem lt_length_of_getC_some {df : List Candle} {i : ℕ} {c : Candle}
    (h : getC df i = some c) : i < df.length := by
  by_contra hc
  rw [getC_eq_none_iff.mpr (by omega)] at h
  exact Option.noConfusion h

/-! ### Congruence: every derived column at index `i` reads only candles at
indices `≤ i` of the series (the no-look-ahead property of the embedding). -/

theorem getC_congr {df1 df2 : List Candle} {i j : ℕ}
    (h : ∀ k, k ≤ i → df1.get? k = df2.get? k) (hj : j ≤ i) :
    getC df1 j = getC df2 j := h j hj

theorem closeCol_congr {df1 df2 : List Candle} {i j : ℕ}
    (h : ∀ k, k ≤ i → df1.get? k = df2.get? k) (hj : j ≤ i) :
    closeCol df1 j = closeCol df2 j := by
  unfold closeCol; rw [getC_congr h hj]

theorem highCol_congr {df1 df2 : List Candle} {i j : ℕ}
    (h : ∀ k, k ≤ i → df1.get? k = df2.get? k) (hj : j ≤ i) :
    highCol df1 j = highCol df2 j := by
  unfold highCol; rw [getC_congr h hj]

theorem lowCol_congr {df1 df2 : List Candle} {i j : ℕ}
    (h : ∀ k, k ≤ i → df1.get? k = df2.get? k) (hj : j ≤ i) :
    lowCol df1 j = lowCol df2 j := by
  unfold lowCol; rw [getC_congr h hj]

theorem volCol_congr {df1 df2 : List Candle} {i j : ℕ}
    (h : ∀ k, k ≤ i → df1.get? k = df2.get? k) (hj : j ≤ i) :
    volCol df1 j = volCol df2 j := by
  unfold volCol; rw [getC_congr h hj]

theorem winVals_congr {s t : ℕ → Option ℚ} {i : ℕ} (n : ℕ)
    (h : ∀ j, j ≤ i → s j = t j) : winVals s n i = winVals t n i := by
  unfold winVals
  split
  · rfl
  · rename_i hn
    congr 1
    refine List.map_congr_left ?_
    intro k hk
    exact h _ (by have := List.mem_range.mp hk; omega)

theorem rollMax_congr {s t : ℕ → Option ℚ} {i : ℕ} (n : ℕ)
    (h : ∀ j, j ≤ i → s j = t j) : rollMax s n i = rollMax t n i := by
  unfold rollMax; rw [winVals_congr n h]

theorem rollMin_congr {s t : ℕ → Option ℚ} {i : ℕ} (n : ℕ)
    (h : ∀ j, j ≤ i → s j = t j) : rollMin s n i = rollMin t n i := by
  unfold rollMin; rw [winVals_congr n h]

theorem rollMean_congr {s t : ℕ → Option ℚ} {i : ℕ} (n : ℕ)
    (h : ∀ j, j ≤ i → s j = t j) : rollMean s n i = rollMean t n i := by
  unfold rollMean; rw [winVals_congr n h]

theorem taEMA_congr {df1 df2 : List Candle} (n : ℕ) :
    ∀ i, (∀ k, k ≤ i → df1.get? k = df2.get? k) → taEMA df1 n i = taEMA df2 n i := by
  intro i
  induction i with
  | zero =>
    intro h
    simp only [taEMA]
    split
    · exact closeCol_congr h le_rfl
    · rfl
  | succ j ih =>
    intro h
    have hm : rollMean (closeCol df1) n (j + 1) = rollMean (closeCol df2) n (j + 1) :=
      rollMean_congr n (fun k hk => closeCol_congr h hk)
    have hih : taEMA df1 n j = taEMA df2 n j := ih (fun k hk => h k (by omega))
    have hc : closeCol df1 (j + 1) = closeCol df2 (j + 1) := closeCol_congr h le_rfl
    simp only [taEMA, hm, hih, hc]

theorem trCol_congr {df1 df2 : List Candle} {i j : ℕ}
    (h : ∀ k, k ≤ i → df1.get? k = df2.get? k) (hj : j ≤ i) :
    trCol df1 j = trCol df2 j := by
  cases j with
  | zero => rfl
  | succ m =>
    simp only [trCol, getC_congr h hj, getC_congr h (by omega : m ≤ i)]

theorem taATR_congr {df1 df2 : List Candle} (n : ℕ) :
    ∀ i, (∀ k, k ≤ i → df1.get? k = df2.get? k) → taATR df1 n i = taATR df2 n i := by
  intro i
  induction i with
  | zero => intro _; rfl
  | succ j ih =>
    intro h
    simp only [taATR]
    split
    · rfl
    · rename_i h1
      split
      · rename_i h2
        have : (List.range n).map (fun k => trCol df1 (k + 1)) =
            (List.range n).map (fun k => trCol df2 (k + 1)) := by
          refine List.map_congr_left ?_
          intro k hk
          exact trCol_congr h (by have := List.mem_range.mp hk; omega)
        rw [this]
      · have hih : taATR df1 n j = taATR df2 n j := ih (fun k hk => h k (by omega))
        simp only [hih, trCol_congr h le_rfl]

theorem ema_fast_congr {df1 df2 : List Candle} {i : ℕ}
    (h : ∀ k, k ≤ i → df1.get? k = df2.get? k) : ema_fast df1 i = ema_fast df2 i :=
  taEMA_congr 40 i h

theorem ema_slow_congr {df1 df2 : List Candle} {i : ℕ}
    (h : ∀ k, k ≤ i → df1.get? k = df2.get? k) : ema_slow df1 i = ema_slow df2 i :=
  taEMA_congr 80 i h

theorem sma_trend_congr {df1 df2 : List Candle} {i : ℕ}
    (h : ∀ k, k ≤ i → df1.get? k = df2.get? k) : sma_trend df1 i = sma_trend df2 i :=
  rollMean_congr 200 (fun _ hk => closeCol_congr h hk)

theorem bull_regime_congr {df1 df2 : List Candle} {i : ℕ}
    (h : ∀ k, k ≤ i → df1.get? k = df2.get? k) : bull_regime df1 i = bull_regime df2 i := by
  unfold bull_regime; rw [ema_fast_congr h, ema_slow_congr h]

theorem bear_regime_congr {df1 df2 : List Candle} {i : ℕ}
    (h : ∀ k, k ≤ i → df1.get? k = df2.get? k) : bear_regime df1 i = bear_regime df2 i := by
  unfold bear_regime
  rw [ema_fast_congr h, ema_slow_congr h, closeCol_congr h le_rfl, sma_trend_congr h]

theorem highest_congr {df1 df2 : List Candle} {i : ℕ}
    (h : ∀ k, k ≤ i → df1.get? k = df2.get? k) : highest df1 i = highest df2 i := by
  cases i with
  | zero => rfl
  | succ j => exact rollMax_congr 28 (fun k hk => highCol_congr h (by omega))

theorem lowest_congr {df1 df2 : List Candle} {i : ℕ}
    (h : ∀ k, k ≤ i → df1.get? k = df2.get? k) : lowest df1 i = lowest df2 i := by
  cases i with
  | zero => rfl
  | succ j => exact rollMin_congr 28 (fun k hk => lowCol_congr h (by omega))

theorem volume_sma_congr {df1 df2 : List Candle} {i : ℕ}
    (h : ∀ k, k ≤ i → df1.get? k = df2.get? k) : volume_sma df1 i = volume_sma df2 i :=
  rollMean_congr 20 (fun _ hk => volCol_congr h hk)

theorem atr_congr {df1 df2 : List Candle} {i : ℕ}
    (h : ∀ k, k ≤ i → df1.get? k = df2.get? k) : atr df1 i = atr df2 i :=
  taATR_congr 14 i h

theorem atr_avg_congr {df1 df2 : List Candle} {i : ℕ}
    (h : ∀ k, k ≤ i → df1.get? k = df2.get? k) : atr_avg df1 i = atr_avg df2 i :=
  rollMean_congr 50 (fun k hk => atr_congr (fun m hm => h m (by omega)))

theorem range_high_congr {df1 df2 : List Candle} {i : ℕ}
    (h : ∀ k, k ≤ i → df1.get? k = df2.get? k) : range_high df1 i = range_high df2 i :=
  rollMax_congr 48 (fun _ hk => highCol_congr h hk)

theorem range_low_congr {df1 df2 : List Candle} {i : ℕ}
    (h : ∀ k, k ≤ i → df1.get? k = df2.get? k) : range_low df1 i = range_low df2 i :=
  rollMin_congr 48 (fun _ hk => lowCol_congr h hk)

theorem range_position_congr {df1 df2 : List Candle} {i : ℕ}
    (h : ∀ k, k ≤ i → df1.get? k = df2.get? k) :
    range_position df1 i = range_position df2 i := by
  unfold range_position range_denom range_size
  rw [closeCol_congr h le_rfl, range_high_congr h, range_low_congr h]

theorem distribution_congr {df1 df2 : List Candle} {i : ℕ}
    (h : ∀ k, k ≤ i → df1.get? k = df2.get? k) : distribution df1 i = distribution df2 i := by
  unfold distribution atr_compressed
  rw [atr_congr h, atr_avg_congr h, range_position_congr h]

theorem distCol_congr {df1 df2 : List Candle} {i : ℕ}
    (h : ∀ k, k ≤ i → df1.get? k = df2.get? k) : distCol df1 i = distCol df2 i := by
  unfold distCol
  have hlen : i < df1.length ↔ i < df2.length := by
    constructor <;> intro hl
    · by_contra hc
      obtain ⟨c, hc'⟩ := @getC_some_of_lt df1 i hl
      have := (h i le_rfl).symm.trans hc'
      exact absurd (lt_length_of_getC_some this) hc
    · by_contra hc
      obtain ⟨c, hc'⟩ := @getC_some_of_lt df2 i hl
      have := (h i le_rfl).trans hc'
      exact absurd (lt_length_of_getC_some this) hc
  rw [distribution_congr h]
  by_cases hl : i < df1.length
  · rw [if_pos hl, if_pos (hlen.mp hl)]
  · rw [if_neg hl, if_neg (fun hh => hl (hlen.mpr hh))]

theorem post_distribution_raw_congr {df1 df2 : List Candle} {i : ℕ}
    (h : ∀ k, k ≤ i → df1.get? k = df2.get? k) :
    post_distribution_raw df1 i = post_distribution_raw df2 i := by
  cases i with
  | zero => rfl
  | succ j =>
    show rollMax (distCol df1) 48 j = rollMax (distCol df2) 48 j
    exact rollMax_congr 48 (fun k hk => distCol_congr (fun m hm => h m (by omega)))

theorem post_distribution_congr {df1 df2 : List Candle} {i : ℕ}
    (h : ∀ k, k ≤ i → df1.get? k = df2.get? k) :
    post_distribution df1 i = post_distribution df2 i := by
  unfold post_distribution
  rw [post_distribution_raw_congr h]

theorem atr_recent_min_congr {df1 df2 : List Candle} {i : ℕ}
    (h : ∀ k, k ≤ i → df1.get? k = df2.get? k) :
    atr_recent_min df1 i = atr_recent_min df2 i :=
  rollMin_congr 20 (fun k hk => atr_congr (fun m hm => h m (by omega)))

theorem no_atr_spike_congr {df1 df2 : List Candle} {i : ℕ}
    (h : ∀ k, k ≤ i → df1.get? k = df2.get? k) : no_atr_spike df1 i = no_atr_spike df2 i := by
  unfold no_atr_spike
  rw [atr_congr h, atr_recent_min_congr h]

theorem enter_long_congr {df1 df2 : List Candle} {i : ℕ}
    (h : ∀ k, k ≤ i → df1.get? k = df2.get? k) : enter_long df1 i = enter_long df2 i := by
  unfold enter_long vol_surge mom_up volatility_ok shiftN
  rw [bull_regime_congr h, closeCol_congr h le_rfl, highest_congr h, ema_slow_congr h,
    volCol_congr h le_rfl, volume_sma_congr h, atr_congr h, atr_avg_congr h]
  by_cases h5 : i < 5
  · rw [if_pos h5, if_pos h5]
  · rw [if_neg h5, if_neg h5, closeCol_congr h (by omega)]

theorem enter_short_congr {df1 df2 : List Candle} {i : ℕ}
    (h : ∀ k, k ≤ i → df1.get? k = df2.get? k) : enter_short df1 i = enter_short df2 i := by
  unfold enter_short short_base vol_surge_short mom_down vol_surge_short_boosted
    mom_down_boosted volatility_ok shiftN
  rw [bear_regime_congr h, closeCol_congr h le_rfl, lowest_congr h, ema_slow_congr h,
    atr_congr h, atr_avg_congr h, no_atr_spike_congr h, volCol_congr h le_rfl,
    volume_sma_congr h, post_distribution_congr h]
  by_cases h5 : i < 5
  · rw [if_pos h5, if_pos h5]
  · rw [if_neg h5, if_neg h5, closeCol_congr h (by omega)]

/-! ### Lemmas about `seqO`, `listMax` / `listMin` and `winVals` -/

theorem seqO_map_some (xs : List ℕ) (f : ℕ → ℚ) :
    seqO (xs.map (fun a => some (f a))) = some (xs.map f) := by
  induction xs with
  | nil => rfl
  | cons a t ih => simp [seqO, ih]

theorem seqO_mem : ∀ {xs : List (Option ℚ)} {l : List ℚ}, seqO xs = some l →
    ∀ {v : ℚ}, some v ∈ xs → v ∈ l := by
  intro xs
  induction xs with
  | nil => intro l _ v hv; exact absurd hv (List.not_mem_nil _)
  | cons o t ih =>
    intro l hl v hv
    cases o with
    | none => exact Option.noConfusion hl
    | some x =>
      simp only [seqO, Option.map_eq_some'] at hl
      obtain ⟨l', hl', rfl⟩ := hl
      rcases List.mem_cons.mp hv with h | h
      · exact (Option.some_inj.mp h) ▸ List.mem_cons_self x l'
      · exact List.mem_cons_of_mem x (ih hl' h)

theorem seqO_forall_some : ∀ {xs : List (Option ℚ)} {l : List ℚ}, seqO xs = some l →
    ∀ o ∈ xs, ∃ v, o = some v := by
  intro xs
  induction xs with
  | nil => intro l _ o ho; exact absurd ho (List.not_mem_nil _)
  | cons a t ih =>
    intro l hl o ho
    cases a with
    | none => exact Option.noConfusion hl
    | some x =>
      simp only [seqO, Option.map_eq_some'] at hl
      obtain ⟨l', hl', rfl⟩ := hl
      rcases List.mem_cons.mp ho with h | h
      · exact ⟨x, h⟩
      · exact ih hl' o h

theorem mem_le_foldl_max : ∀ (xs : List ℚ) (x v : ℚ), v ∈ x :: xs → v ≤ xs.foldl max x := by
  intro xs
  induction xs with
  | nil =>
    intro x v hv
    rw [List.mem_singleton.mp hv]
    exact le_refl _
  | cons y ys ih =>
    intro x v hv
    rw [List.foldl_cons]
    rcases List.mem_cons.mp hv with h | h
    · subst h
      exact le_trans (le_max_left v y) (ih (max v y) _ (List.mem_cons_self _ _))
    · rcases List.mem_cons.mp h with h' | h'
      · subst h'
        exact le_trans (le_max_right x v) (ih (max x v) _ (List.mem_cons_self _ _))
      · exact ih (max x y) v (List.mem_cons_of_mem _ h')

theorem foldl_max_mem : ∀ (xs : List ℚ) (x : ℚ), xs.foldl max x ∈ x :: xs := by
  intro xs
  induction xs with
  | nil => intro x; exact List.mem_singleton.mpr rfl
  | cons y ys ih =>
    intro x
    rw [List.foldl_cons]
    rcases List.mem_cons.mp (ih (max x y)) with h | h
    · rcases max_choice x y with h' | h'
      · exact List.mem_cons.mpr (Or.inl (h.trans h'))
      · exact List.mem_cons_of_mem _ (List.mem_cons.mpr (Or.inl (h.trans h')))
    · exact List.mem_cons_of_mem _ (List.mem_cons_of_mem _ h)

theorem foldl_min_le_mem : ∀ (xs : List ℚ) (x v : ℚ), v ∈ x :: xs → xs.foldl min x ≤ v := by
  intro xs
  induction xs with
  | nil =>
    intro x v hv
    rw [List.mem_singleton.mp hv]
    exact le_refl _
  | cons y ys ih =>
    intro x v hv
    rw [List.foldl_cons]
    rcases List.mem_cons.mp hv with h | h
    · subst h
      exact le_trans (ih (min v y) _ (List.mem_cons_self _ _)) (min_le_left v y)
    · rcases List.mem_cons.mp h with h' | h'
      · subst h'
        exact le_trans (ih (min x v) _ (List.mem_cons_self _ _)) (min_le_right x v)
      · exact ih (min x y) v (List.mem_cons_of_mem _ h')

theorem le_listMax {l : List ℚ} {m v : ℚ} (hm : listMax l = some m) (hv : v ∈ l) : v ≤ m := by
  cases l with
  | nil => exact absurd hv (List.not_mem_nil _)
  | cons x xs =>
    have : m = xs.foldl max x := (Option.some_inj.mp hm).symm
    exact this ▸ mem_le_foldl_max xs x v hv

theorem listMax_mem {l : List ℚ} {m : ℚ} (hm : listMax l = some m) : m ∈ l := by
  cases l with
  | nil => exact Option.noConfusion hm
  | cons x xs =>
    have : m = xs.foldl max x := (Option.some_inj.mp hm).symm
    exact this ▸ foldl_max_mem xs x

theorem listMin_le {l : List ℚ} {m v : ℚ} (hm : listMin l = some m) (hv : v ∈ l) : m ≤ v := by
  cases l with
  | nil => exact absurd hv (List.not_mem_nil _)
  | cons x xs =>
    have : m = xs.foldl min x := (Option.some_inj.mp hm).symm
    exact this ▸ foldl_min_le_mem xs x v hv

theorem winVals_some_mem {s : ℕ → Option ℚ} {n i : ℕ} {l : List ℚ}
    (hw : winVals s n i = some l) {k : ℕ} (hk : k < n) {v : ℚ}
    (hv : s (i + 1 - n + k) = some v) : v ∈ l := by
  unfold winVals at hw
  split at hw
  · exact Option.noConfusion hw
  · refine seqO_mem hw ?_
    refine List.mem_map.mpr ⟨k, List.mem_range.mpr hk, ?_⟩
    exact hv

/-! ### Warm-up: indicators are undefined before their window fills -/

theorem taEMA_eq_none {df : List Candle} {n i : ℕ} (h : i + 1 < n) :
    taEMA df n i = none := by
  cases i with
  | zero =>
    simp only [taEMA]
    rw [if_neg (by omega)]
  | succ j =>
    simp only [taEMA]
    rw [if_pos (by omega)]

theorem rollMean_eq_none {s : ℕ → Option ℚ} {n i : ℕ} (h : i + 1 < n) :
    rollMean s n i = none := by
  unfold rollMean winVals
  rw [if_pos h]
  rfl

/-! ### Definedness of ATR forces the row to exist -/

theorem trCol_some_getC {df : List Candle} {m : ℕ} {v : ℚ}
    (h : trCol df (m + 1) = some v) : ∃ c, getC df (m + 1) = some c := by
  simp only [trCol] at h
  cases hg : getC df (m + 1) with
  | none => rw [hg] at h; exact Option.noConfusion h
  | some c => exact ⟨c, rfl⟩

theorem taATR_some_lt {df : List Candle} {n : ℕ} :
    ∀ {j : ℕ} {v : ℚ}, taATR df n j = some v → j < df.length := by
  intro j
  cases j with
  | zero => intro v h; exact Option.noConfusion h
  | succ m =>
    intro v h
    simp only [taATR] at h
    split at h
    · exact Option.noConfusion h
    · rename_i h1
      split at h
      · rename_i h2
        rw [Option.map_eq_some'] at h
        obtain ⟨l, hl, _⟩ := h
        have hmem : trCol df (m + 1) ∈ (List.range n).map (fun k => trCol df (k + 1)) := by
          refine List.mem_map.mpr ⟨m, List.mem_range.mpr (by omega), rfl⟩
        obtain ⟨w, hw⟩ := seqO_forall_some hl _ hmem
        obtain ⟨c, hc⟩ := trCol_some_getC hw
        exact lt_length_of_getC_some hc
      · rw [Option.bind_eq_some] at h
        obtain ⟨p, _, hmap⟩ := h
        rw [Option.map_eq_some'] at hmap
        obtain ⟨t, ht, _⟩ := hmap
        obtain ⟨c, hc⟩ := trCol_some_getC ht
        exact lt_length_of_getC_some hc

theorem distribution_true_lt {df : List Candle} {j : ℕ}
    (h : distribution df j = true) : j < df.length := by
  unfold distribution atr_compressed at h
  rw [Bool.and_eq_true] at h
  obtain ⟨a, b, ha, _, _⟩ := oLT_eq_true_iff.mp h.1
  exact taATR_some_lt ha

/-! ### Window-restricted congruence (used for the breakout levels) -/

theorem winVals_congr_window {s t : ℕ → Option ℚ} {i : ℕ} (n : ℕ)
    (h : ∀ j, j ≤ i → i + 1 - n ≤ j → s j = t j) : winVals s n i = winVals t n i := by
  unfold winVals
  split
  · rfl
  · rename_i hn
    congr 1
    refine List.map_congr_left ?_
    intro k hk
    have hk' := List.mem_range.mp hk
    exact h _ (by omega) (by omega)

theorem rollMax_congr_window {s t : ℕ → Option ℚ} {i : ℕ} (n : ℕ)
    (h : ∀ j, j ≤ i → i + 1 - n ≤ j → s j = t j) : rollMax s n i = rollMax t n i := by
  unfold rollMax; rw [winVals_congr_window n h]

theorem rollMin_congr_window {s t : ℕ → Option ℚ} {i : ℕ} (n : ℕ)
    (h : ∀ j, j ≤ i → i + 1 - n ≤ j → s j = t j) : rollMin s n i = rollMin t n i := by
  unfold rollMin; rw [winVals_congr_window n h]

/-! ### Claim theorems -/

/-- C3: entry-long and entry-short are never both set at the same index:
the bull regime needs EMA-40 > EMA-80 while the bear regime needs
EMA-40 < EMA-80, which cannot hold simultaneously. -/
theorem C3_long_short_exclusive (df : List Candle) (i : ℕ) :
    (enter_long df i && enter_short df i) = false := by
  cases hf : ema_fast df i with
  | none =>
    have hb : bull_regime df i = false := by
      unfold bull_regime; rw [hf]; exact oGT_none_left _
    unfold enter_long
    rw [hb]
    simp
  | some a =>
    cases hs : ema_slow df i with
    | none =>
      have hb : bull_regime df i = false := by
        unfold bull_regime; rw [hf, hs]; exact oGT_none_right _
      unfold enter_long
      rw [hb]
      simp
    | some b =>
      by_cases hab : b < a
      · have hbear : bear_regime df i = false := by
          unfold bear_regime oLT
          rw [hf, hs, oGT_some_some]
          simp [lt_asymm hab]
        unfold enter_short short_base
        rw [hbear]
        simp
      · have hb : bull_regime df i = false := by
          unfold bull_regime
          rw [hf, hs, oGT_some_some]
          simp [hab]
        unfold enter_long
        rw [hb]
        simp

/-- C6 (amended): the entry flags are not suppressed up to the 250-candle
warm-up threshold; they are unset exactly while a required indicator is
still undefined — `enter_long` is unset for `i < 79` (EMA-80 undefined) and
`enter_short` for `i < 199` (SMA-200 undefined).  Excluding the first
`startup_candle_count = 250` rows is left to the calling framework. -/
theorem C6_flags_before_warmup (df : List Candle) (i : ℕ) :
    (decide (i < 79) && enter_long df i) = false ∧
    (decide (i < 199) && enter_short df i) = false := by
  constructor
  · by_cases h : i < 79
    · have hs : ema_slow df i = none := taEMA_eq_none (by omega)
      have hb : bull_regime df i = false := by
        unfold bull_regime; rw [hs]; exact oGT_none_right _
      unfold enter_long
      rw [hb]
      simp
    · simp [h]
  · by_cases h : i < 199
    · have hs : sma_trend df i = none := rollMean_eq_none (by omega)
      have hb : bear_regime df i = false := by
        unfold bear_regime oLT
        rw [hs, oGT_none_left, Bool.and_false]
      unfold enter_short short_base
      rw [hb]
      simp
    · simp [h]

/-- C6 counterexample: on a concrete 101-candle series the long-entry flag
is set at index 100, strictly before the warm-up threshold 250, refuting
the claim that flags are always unset there. -/
theorem C6_cx_flag_set_early : 100 < 250 ∧ enter_long earlyDF 100 = true :=
  ⟨by norm_num, by decide!⟩

/-- C9: the populate transformations only append derived columns; every
input candle column (date, open, high, low, close, volume) is unchanged at
every index. -/
theorem C9_candles_preserved (f : StratDF) :
    (populate_entry_trend (populate_indicators f)).candles = f.candles ∧
    ∀ i, (populate_entry_trend (populate_indicators f)).candles.get? i = f.candles.get? i ∧
      ((populate_entry_trend (populate_indicators f)).candles.get? i).map Candle.date =
        (f.candles.get? i).map Candle.date ∧
      ((populate_entry_trend (populate_indicators f)).candles.get? i).map Candle.open_ =
        (f.candles.get? i).map Candle.open_ ∧
      ((populate_entry_trend (populate_indicators f)).candles.get? i).map Candle.high =
        (f.candles.get? i).map Candle.high ∧
      ((populate_entry_trend (populate_indicators f)).candles.get? i).map Candle.low =
        (f.candles.get? i).map Candle.low ∧
      ((populate_entry_trend (populate_indicators f)).candles.get? i).map Candle.close =
        (f.candles.get? i).map Candle.close ∧
      ((populate_entry_trend (populate_indicators f)).candles.get? i).map Candle.volume =
        (f.candles.get? i).map Candle.volume :=
  ⟨rfl, fun _ => ⟨rfl, rfl, rfl, rfl, rfl, rfl, rfl⟩⟩

/-- C10: at a row where the shifted distribution window is undefined the
`post_distribution` flag evaluates to `false` (the pandas `NaN > 0`
comparison), so the Wyckoff-boosted branch contributes nothing and
`enter_short` reduces to the standard branch alone. -/
theorem C10_undefined_post_is_false (df : List Candle) (i : ℕ)
    (h : post_distribution_raw df i = none) :
    post_distribution df i = false ∧
    enter_short df i =
      (short_base df i && (vol_surge_short df i && mom_down df i)) := by
  have hpd : post_distribution df i = false := by
    unfold post_distribution; rw [h]; exact oGT_none_left _
  refine ⟨hpd, ?_⟩
  unfold enter_short
  rw [hpd]
  simp

/-- Witness for C10 at the concrete empty series and index 0. -/
theorem C10_witness : post_distribution_raw ([] : List Candle) 0 = none ∧
    (post_distribution ([] : List Candle) 0 = false ∧
     enter_short ([] : List Candle) 0 =
       (short_base ([] : List Candle) 0 &&
        (vol_surge_short ([] : List Candle) 0 && mom_down ([] : List Candle) 0))) :=
  ⟨rfl, C10_undefined_post_is_false [] 0 rfl⟩

/-- C1: at any index where all referenced indicator values are defined,
`enter_long` is set iff: bull regime (EMA-40 > EMA-80), close above the
shifted 28-period rolling high, close above EMA-80, volume above 2.7 times
the 20-period volume SMA, close above 1.02 times the close five candles
back, and ATR-14 below 2.0 times its 50-period rolling mean. -/
theorem C1_enter_long_iff (df : List Candle) (i : ℕ) (c p : Candle)
    (a b hb vs t av : ℚ)
    (hc : getC df i = some c) (h5 : 5 ≤ i) (hp : getC df (i - 5) = some p)
    (hf : ema_fast df i = some a) (hs : ema_slow df i = some b)
    (hh : highest df i = some hb) (hv : volume_sma df i = some vs)
    (ht : atr df i = some t) (ha : atr_avg df i = some av) :
    enter_long df i = true ↔
      (b < a ∧ hb < c.close ∧ b < c.close ∧ vs * (27 / 10) < c.volume ∧
        p.close * (1 + 2 / 100) < c.close ∧ t < av * 2) := by
  have hcc : closeCol df i = some c.close := by unfold closeCol; rw [hc]; rfl
  have hvv : volCol df i = some c.volume := by unfold volCol; rw [hc]; rfl
  have hsh : shiftN 5 (closeCol df) i = some p.close := by
    unfold shiftN
    rw [if_neg (by omega)]
    unfold closeCol; rw [hp]; rfl
  unfold enter_long bull_regime vol_surge mom_up volatility_ok oLT
  rw [hf, hs, hh, hv, ht, ha, hcc, hvv, hsh]
  simp only [Option.map_some', oGT_some_some, Bool.and_eq_true, decide_eq_true_eq]
  tauto

/-- Witness for C1 on a concrete constant 100-candle series at index 99,
where every referenced indicator is defined. -/
theorem C1_witness :
    (getC (constDF 100) 99 = some c0 ∧ 5 ≤ 99 ∧ getC (constDF 100) 94 = some c0 ∧
     ema_fast (constDF 100) 99 = some 1 ∧ ema_slow (constDF 100) 99 = some 1 ∧
     highest (constDF 100) 99 = some 2 ∧ volume_sma (constDF 100) 99 = some 1 ∧
     atr (constDF 100) 99 = some 2 ∧ atr_avg (constDF 100) 99 = some 2) ∧
    (enter_long (constDF 100) 99 = true ↔
      ((1 : ℚ) < 1 ∧ (2 : ℚ) < c0.close ∧ (1 : ℚ) < c0.close ∧
        (1 : ℚ) * (27 / 10) < c0.volume ∧
        c0.close * (1 + 2 / 100) < c0.close ∧ (2 : ℚ) < 2 * 2)) := by
  have h1 : getC (constDF 100) 99 = some c0 := by decide!
  have h2 : getC (constDF 100) 94 = some c0 := by decide!
  have h3 : ema_fast (constDF 100) 99 = some 1 := by decide!
  have h4 : ema_slow (constDF 100) 99 = some 1 := by decide!
  have h5 : highest (constDF 100) 99 = some 2 := by decide!
  have h6 : volume_sma (constDF 100) 99 = some 1 := by decide!
  have h7 : atr (constDF 100) 99 = some 2 := by decide!
  have h8 : atr_avg (constDF 100) 99 = some 2 := by decide!
  exact ⟨⟨h1, by omega, h2, h3, h4, h5, h6, h7, h8⟩,
    C1_enter_long_iff (constDF 100) 99 c0 c0 1 1 2 1 2 2
      h1 (by omega) h2 h3 h4 h5 h6 h7 h8⟩

/-- C2: at any index where all referenced indicator values are defined,
`enter_short` is set iff: bear regime (EMA-40 < EMA-80 and close below
SMA-200), close below the shifted 28-period rolling low, close below
EMA-80, ATR-14 below 2.0 times its 50-period rolling mean, no ATR spike
(ATR not above 1.52 times its 20-period rolling minimum), and either the
standard branch (volume above 2.7 times the volume SMA and close below 0.97
times the close five candles back) or the Wyckoff-boosted branch
(post-distribution, volume above 2.2 times the volume SMA, and close below
0.98 times the close five candles back). -/
theorem C2_enter_short_iff (df : List Candle) (i : ℕ) (c p : Candle)
    (a b sm lo vs t av mn : ℚ)
    (hc : getC df i = some c) (h5 : 5 ≤ i) (hp : getC df (i - 5) = some p)
    (hf : ema_fast df i = some a) (hs : ema_slow df i = some b)
    (hsm : sma_trend df i = some sm) (hl : lowest df i = some lo)
    (hv : volume_sma df i = some vs) (ht : atr df i = some t)
    (ha : atr_avg df i = some av) (hm : atr_recent_min df i = some mn) :
    enter_short df i = true ↔
      ((a < b ∧ c.close < sm) ∧ c.close < lo ∧ c.close < b ∧ t < av * 2 ∧
        ¬ (mn * (38 / 25) < t) ∧
        ((vs * (27 / 10) < c.volume ∧ c.close < p.close * (1 - 3 / 100)) ∨
         (post_distribution df i = true ∧ vs * (22 / 10) < c.volume ∧
          c.close < p.close * (1 - 2 / 100)))) := by
  have hcc : closeCol df i = some c.close := by unfold closeCol; rw [hc]; rfl
  have hvv : volCol df i = some c.volume := by unfold volCol; rw [hc]; rfl
  have hsh : shiftN 5 (closeCol df) i = some p.close := by
    unfold shiftN
    rw [if_neg (by omega)]
    unfold closeCol; rw [hp]; rfl
  unfold enter_short short_base bear_regime vol_surge_short mom_down
    vol_surge_short_boosted mom_down_boosted volatility_ok no_atr_spike oLT
  rw [hf, hs, hsm, hl, hv, ht, ha, hm, hcc, hvv, hsh]
  simp only [Option.map_some', oGT_some_some, Bool.and_eq_true, Bool.or_eq_true,
    Bool.not_eq_true', decide_eq_true_eq, decide_eq_false_iff_not]
  tauto

/-- Witness for C2 on a concrete constant 200-candle series at index 199,
where every referenced indicator is defined. -/
theorem C2_witness :
    (getC (constDF 200) 199 = some c0 ∧ 5 ≤ 199 ∧ getC (constDF 200) 194 = some c0 ∧
     ema_fast (constDF 200) 199 = some 1 ∧ ema_slow (constDF 200) 199 = some 1 ∧
     sma_trend (constDF 200) 199 = some 1 ∧ lowest (constDF 200) 199 = some 0 ∧
     volume_sma (constDF 200) 199 = some 1 ∧ atr (constDF 200) 199 = some 2 ∧
     atr_avg (constDF 200) 199 = some 2 ∧ atr_recent_min (constDF 200) 199 = some 2) ∧
    (enter_short (constDF 200) 199 = true ↔
      (((1 : ℚ) < 1 ∧ c0.close < 1) ∧ c0.close < 0 ∧ c0.close < 1 ∧ (2 : ℚ) < 2 * 2 ∧
        ¬ ((2 : ℚ) * (38 / 25) < 2) ∧
        (((1 : ℚ) * (27 / 10) < c0.volume ∧ c0.close < c0.close * (1 - 3 / 100)) ∨
         (post_distribution (constDF 200) 199 = true ∧
          (1 : ℚ) * (22 / 10) < c0.volume ∧
          c0.close < c0.close * (1 - 2 / 100))))) := by
  have h1 : getC (constDF 200) 199 = some c0 := by decide!
  have h2 : getC (constDF 200) 194 = some c0 := by decide!
  have h3 : ema_fast (constDF 200) 199 = some 1 := by decide!
  have h4 : ema_slow (constDF 200) 199 = some 1 := by decide!
  have h5 : sma_trend (constDF 200) 199 = some 1 := by decide!
  have h6 : lowest (constDF 200) 199 = some 0 := by decide!
  have h7 : volume_sma (constDF 200) 199 = some 1 := by decide!
  have h8 : atr (constDF 200) 199 = some 2 := by decide!
  have h9 : atr_avg (constDF 200) 199 = some 2 := by decide!
  have h10 : atr_recent_min (constDF 200) 199 = some 2 := by decide!
  exact ⟨⟨h1, by omega, h2, h3, h4, h5, h6, h7, h8, h9, h10⟩,
    C2_enter_short_iff (constDF 200) 199 c0 c0 1 1 1 0 1 2 2 2
      h1 (by omega) h2 h3 h4 h5 h6 h7 h8 h9 h10⟩

/-- C5: the breakout levels at index `i` (shifted rolling 28-max of high /
28-min of low) are computed only from candles at indices `i - 28` through
`i - 1`: any two series agreeing on that index range — in particular two
series differing only in candle `i`, however extreme its high or low —
yield the same `highest` and `lowest` at `i`. -/
theorem C5_breakout_window (df1 df2 : List Candle) (i : ℕ)
    (h : ∀ j, j ≤ i - 1 → i - 28 ≤ j → df1.get? j = df2.get? j) :
    highest df1 i = highest df2 i ∧ lowest df1 i = lowest df2 i := by
  cases i with
  | zero => exact ⟨rfl, rfl⟩
  | succ m =>
    constructor
    · show rollMax (highCol df1) 28 m = rollMax (highCol df2) 28 m
      refine rollMax_congr_window 28 ?_
      intro j hj1 hj2
      unfold highCol getC
      rw [h j (by omega) (by omega)]
    · show rollMin (lowCol df1) 28 m = rollMin (lowCol df2) 28 m
      refine rollMin_congr_window 28 ?_
      intro j hj1 hj2
      unfold lowCol getC
      rw [h j (by omega) (by omega)]

/-- Witness for C5: a 29-candle flat series versus the same series with an
extreme candle at index 28; the breakout levels at 28 agree. -/
theorem C5_witness :
    (∀ j, j ≤ 28 - 1 → 28 - 28 ≤ j → flat29DF.get? j = spike29DF.get? j) ∧
    (highest flat29DF 28 = highest spike29DF 28 ∧
     lowest flat29DF 28 = lowest spike29DF 28) := by
  have h : ∀ j, j ≤ 28 - 1 → 28 - 28 ≤ j → flat29DF.get? j = spike29DF.get? j := by
    decide!
  exact ⟨h, C5_breakout_window flat29DF spike29DF 28 h⟩

/-- C4: no look-ahead — if two candle series agree at every index `≤ i`,
then every derived indicator column and both entry flags agree at every
index `≤ i`; in particular appending candles never changes previously
computed outputs. -/
theorem C4_no_lookahead (df1 df2 : List Candle) (i : ℕ)
    (h : ∀ j, j ≤ i → df1.get? j = df2.get? j) :
    ∀ j, j ≤ i →
      ema_fast df1 j = ema_fast df2 j ∧ ema_slow df1 j = ema_slow df2 j ∧
      sma_trend df1 j = sma_trend df2 j ∧ bull_regime df1 j = bull_regime df2 j ∧
      bear_regime df1 j = bear_regime df2 j ∧ highest df1 j = highest df2 j ∧
      lowest df1 j = lowest df2 j ∧ volume_sma df1 j = volume_sma df2 j ∧
      atr df1 j = atr df2 j ∧ atr_avg df1 j = atr_avg df2 j ∧
      post_distribution df1 j = post_distribution df2 j ∧
      no_atr_spike df1 j = no_atr_spike df2 j ∧
      enter_long df1 j = enter_long df2 j ∧ enter_short df1 j = enter_short df2 j := by
  intro j hj
  have hr : ∀ k, k ≤ j → df1.get? k = df2.get? k := fun k hk => h k (le_trans hk hj)
  exact ⟨ema_fast_congr hr, ema_slow_congr hr, sma_trend_congr hr, bull_regime_congr hr,
    bear_regime_congr hr, highest_congr hr, lowest_congr hr, volume_sma_congr hr,
    atr_congr hr, atr_avg_congr hr, post_distribution_congr hr, no_atr_spike_congr hr,
    enter_long_congr hr, enter_short_congr hr⟩

/-- Witness for C4: a one-candle series versus a two-candle extension;
all outputs agree at index 0. -/
theorem C4_witness :
    (∀ j, j ≤ 0 → (constDF 1).get? j = (constDF 2).get? j) ∧
    (∀ j, j ≤ 0 →
      ema_fast (constDF 1) j = ema_fast (constDF 2) j ∧
      ema_slow (constDF 1) j = ema_slow (constDF 2) j ∧
      sma_trend (constDF 1) j = sma_trend (constDF 2) j ∧
      bull_regime (constDF 1) j = bull_regime (constDF 2) j ∧
      bear_regime (constDF 1) j = bear_regime (constDF 2) j ∧
      highest (constDF 1) j = highest (constDF 2) j ∧
      lowest (constDF 1) j = lowest (constDF 2) j ∧
      volume_sma (constDF 1) j = volume_sma (constDF 2) j ∧
      atr (constDF 1) j = atr (constDF 2) j ∧
      atr_avg (constDF 1) j = atr_avg (constDF 2) j ∧
      post_distribution (constDF 1) j = post_distribution (constDF 2) j ∧
      no_atr_spike (constDF 1) j = no_atr_spike (constDF 2) j ∧
      enter_long (constDF 1) j = enter_long (constDF 2) j ∧
      enter_short (constDF 1) j = enter_short (constDF 2) j) := by
  have h : ∀ j, j ≤ 0 → (constDF 1).get? j = (constDF 2).get? j := by decide!
  exact ⟨h, C4_no_lookahead (constDF 1) (constDF 2) 0 h⟩

/-- C8: the divisor used for `range_position` is never zero (an exact zero
range width is replaced by the epsilon `1e-10` before dividing), and at any
index with a full in-range 48-candle window of valid candles and strictly
positive range width, `range_position` is defined and lies in `[0, 1]`. -/
theorem C8_range_position_safe (df : List Candle) (i : ℕ) :
    (∀ d, range_denom df i = some d → d ≠ 0) ∧
    (windowOK df i = true →
      ∃ r, range_position df i = some r ∧ 0 ≤ r ∧ r ≤ 1) := by
  constructor
  · intro d hd
    unfold range_denom at hd
    rw [Option.map_eq_some'] at hd
    obtain ⟨s, _, rfl⟩ := hd
    split
    · norm_num
    · assumption
  · intro hW
    unfold windowOK at hW
    simp only [Bool.and_eq_true, decide_eq_true_eq, List.all_eq_true] at hW
    obtain ⟨⟨⟨h47, hlen⟩, hall⟩, hGT⟩ := hW
    obtain ⟨h, lo, hrh, hrl, hlt⟩ := oGT_eq_true_iff.mp hGT
    obtain ⟨ci, hci⟩ := getC_some_of_lt hlen
    have h47i : i + 1 - 48 + 47 = i := by omega
    have hvi : validC ci = true := by
      have hx := hall 47 (List.mem_range.mpr (by norm_num))
      rw [h47i, hci] at hx
      simpa using hx
    have hvi' : ci.low ≤ ci.close ∧ ci.close ≤ ci.high := by
      unfold validC at hvi
      rw [Bool.and_eq_true, decide_eq_true_eq, decide_eq_true_eq] at hvi
      exact hvi
    -- close is below the window maximum of highs
    have hhigh : ci.close ≤ h := by
      have hrh' : rollMax (highCol df) 48 i = some h := hrh
      unfold rollMax at hrh'
      cases hwv : winVals (highCol df) 48 i with
      | none => rw [hwv] at hrh'; exact Option.noConfusion hrh'
      | some L =>
        rw [hwv] at hrh'
        have hmax : listMax L = some h := hrh'
        have hmem : ci.high ∈ L := by
          refine winVals_some_mem hwv (by norm_num : (47 : ℕ) < 48) ?_
          rw [h47i]
          unfold highCol
          rw [hci]
          rfl
        exact le_trans hvi'.2 (le_listMax hmax hmem)
    -- close is above the window minimum of lows
    have hlow : lo ≤ ci.close := by
      have hrl' : rollMin (lowCol df) 48 i = some lo := hrl
      unfold rollMin at hrl'
      cases hwv : winVals (lowCol df) 48 i with
      | none => rw [hwv] at hrl'; exact Option.noConfusion hrl'
      | some L =>
        rw [hwv] at hrl'
        have hmin : listMin L = some lo := hrl'
        have hmem : ci.low ∈ L := by
          refine winVals_some_mem hwv (by norm_num : (47 : ℕ) < 48) ?_
          rw [h47i]
          unfold lowCol
          rw [hci]
          rfl
        exact le_trans (listMin_le hmin hmem) hvi'.1
    have hcc : closeCol df i = some ci.close := by
      unfold closeCol; rw [hci]; rfl
    have hsz : range_size df i = some (h - lo) := by
      unfold range_size
      rw [hrh, hrl]
      rfl
    have hde : range_denom df i = some (h - lo) := by
      unfold range_denom
      rw [hsz, Option.map_some']
      rw [if_neg (sub_ne_zero_of_ne (ne_of_gt hlt))]
    refine ⟨(ci.close - lo) / (h - lo), ?_, ?_, ?_⟩
    · unfold range_position
      rw [hcc, hrl, hde]
      rfl
    · apply div_nonneg <;> linarith
    · rw [div_le_one (by linarith)]
      linarith

/-- Witness for C8 on a concrete 48-candle valid series at index 47. -/
theorem C8_witness :
    windowOK valid48DF 47 = true ∧
    ((∀ d, range_denom valid48DF 47 = some d → d ≠ 0) ∧
     ∃ r, range_position valid48DF 47 = some r ∧ 0 ≤ r ∧ r ≤ 1) := by
  have hw : windowOK valid48DF 47 = true := by decide!
  exact ⟨hw, (C8_range_position_safe valid48DF 47).1,
    (C8_range_position_safe valid48DF 47).2 hw⟩

/-- Core window characterisation of `post_distribution`: with a full
in-range shifted 48-window, the flag is true exactly when some row in the
preceding 48 candles had the `distribution` flag. -/
theorem post_distribution_true_iff (df : List Candle) (i : ℕ)
    (hi : 48 ≤ i) (hlen : i ≤ df.length) :
    post_distribution df i = true ↔
      ∃ j, i - 48 ≤ j ∧ j ≤ i - 1 ∧ distribution df j = true := by
  obtain ⟨m, rfl⟩ : ∃ m, i = m + 1 := ⟨i - 1, by omega⟩
  show oGT (rollMax (distCol df) 48 m) (some 0) = true ↔ _
  have hwin : (List.range 48).map (fun k => distCol df (m + 1 - 48 + k)) =
      (List.range 48).map
        (fun k => some (if distribution df (m + 1 - 48 + k) then (1 : ℚ) else 0)) := by
    refine List.map_congr_left ?_
    intro k hk
    have hk' := List.mem_range.mp hk
    unfold distCol
    rw [if_pos (by omega)]
  have hwv : winVals (distCol df) 48 m =
      some ((List.range 48).map
        (fun k => if distribution df (m + 1 - 48 + k) then (1 : ℚ) else 0)) := by
    unfold winVals
    rw [if_neg (by omega), hwin, seqO_map_some]
  unfold rollMax
  rw [hwv]
  show oGT (listMax ((List.range 48).map
      (fun k => if distribution df (m + 1 - 48 + k) then (1 : ℚ) else 0))) (some 0) =
    true ↔ _
  constructor
  · intro hx
    obtain ⟨mx, z, hmx, hz, hltz⟩ := oGT_eq_true_iff.mp hx
    have hz0 : z = 0 := (Option.some_inj.mp hz).symm
    subst hz0
    obtain ⟨k, hk, hgk⟩ := List.mem_map.mp (listMax_mem hmx)
    have hk' := List.mem_range.mp hk
    by_cases hd : distribution df (m + 1 - 48 + k) = true
    · exact ⟨m + 1 - 48 + k, by omega, by omega, hd⟩
    · exfalso
      rw [if_neg hd] at hgk
      rw [← hgk] at hltz
      exact lt_irrefl _ hltz
  · rintro ⟨j, hj1, hj2, hd⟩
    have hk : j - (m + 1 - 48) < 48 := by omega
    have hidx : m + 1 - 48 + (j - (m + 1 - 48)) = j := by omega
    have h1L : (1 : ℚ) ∈ (List.range 48).map
        (fun k => if distribution df (m + 1 - 48 + k) then (1 : ℚ) else 0) := by
      refine List.mem_map.mpr ⟨j - (m + 1 - 48), List.mem_range.mpr hk, ?_⟩
      rw [hidx, if_pos hd]
    rcases hLc : (List.range 48).map
        (fun k => if distribution df (m + 1 - 48 + k) then (1 : ℚ) else 0) with _ | ⟨x, xs⟩
    · rw [hLc] at h1L
      exact absurd h1L (List.not_mem_nil _)
    · rw [hLc] at h1L
      have hmax : listMax (x :: xs) = some (xs.foldl max x) := rfl
      rw [hmax]
      have h1le := le_listMax hmax h1L
      rw [oGT_some_some]
      rw [decide_eq_true_eq]
      linarith

/-- C7: for any in-range index with a fully defined shifted 48-window,
`post_distribution` is true iff the `distribution` flag held at some index
in the preceding 48 candles; consequently, after one isolated qualifying
row `j0` (and none other on the frame) the flag holds on the 48 subsequent
rows and is false at every later row. -/
theorem C7_post_distribution_window (df : List Candle) (i j0 : ℕ)
    (hi : 49 ≤ i) (hlen : i ≤ df.length)
    (hq : distribution df j0 = true)
    (hiso : ∀ j, j < df.length → j ≠ j0 → distribution df j = false) :
    (post_distribution df i = true ↔
      ∃ j, i - 48 ≤ j ∧ j ≤ i - 1 ∧ distribution df j = true) ∧
    (j0 + 1 ≤ i → i ≤ j0 + 48 → post_distribution df i = true) ∧
    (j0 + 48 < i → post_distribution df i = false) := by
  have hiff := post_distribution_true_iff df i (by omega) hlen
  refine ⟨hiff, ?_, ?_⟩
  · intro hl hr
    exact hiff.mpr ⟨j0, by omega, by omega, hq⟩
  · intro hgt
    cases hpost : post_distribution df i with
    | false => rfl
    | true =>
      obtain ⟨j, h1, h2, hd⟩ := hiff.mp hpost
      have hjlen := distribution_true_lt hd
      have hneq : j ≠ j0 := by omega
      rw [hiso j hjlen hneq] at hd
      exact Bool.noConfusion hd

/-- Witness for C7 on the concrete 65-candle series whose `distribution`
flag is true exactly at index 63, evaluated at index 64. -/
theorem C7_witness :
    (49 ≤ 64 ∧ 64 ≤ wyckoffDF.length ∧ distribution wyckoffDF 63 = true ∧
     (∀ j, j < wyckoffDF.length → j ≠ 63 → distribution wyckoffDF j = false)) ∧
    ((post_distribution wyckoffDF 64 = true ↔
       ∃ j, 64 - 48 ≤ j ∧ j ≤ 64 - 1 ∧ distribution wyckoffDF j = true) ∧
     (63 + 1 ≤ 64 → 64 ≤ 63 + 48 → post_distribution wyckoffDF 64 = true) ∧
     (63 + 48 < 64 → post_distribution wyckoffDF 64 = false)) := by
  have h1 : (49 : ℕ) ≤ 64 := by omega
  have h2 : 64 ≤ wyckoffDF.length := by decide!
  have h3 : distribution wyckoffDF 63 = true := by decide!
  have h4 : ∀ j, j < wyckoffDF.length → j ≠ 63 → distribution wyckoffDF j = false := by
    decide!
  exact ⟨⟨h1, h2, h3, h4⟩, C7_post_distribution_window wyckoffDF 64 63 h1 h2 h3 h4⟩

end DanielsNumber1
